import Mathlib

/-!
Verification of the quota-guarded bulk send pipeline.

A shallow embedding, in Lean 4, of the core logic of a bulk-email sending
application: the daily quota store and quota service (`canSendEmails`,
`incrementDailyCount`, `reserveQuota`, `validateSendRequest`, `checkSESCapacity`),
the personalization engine (`personalizeContent`), the dispatch loop
(`sendBulkEmails` / `sendEmail`), the send route handler together with its
quota-guard middleware, and the open-tracking pixel endpoint.

JavaScript strings are embedded as `List Char`; machine numbers that can go
negative (quota remainders, AWS window counts) are embedded as `Int`; database
counters that are only ever incremented by non-negative amounts are `Nat`.
Exceptions are embedded as `Option`/sum results.  Each definition is a direct
translation of the corresponding source function; definitions whose name and
doc comment say so follow the specification text instead, for comparison
against the translated code.
-/

/- ## Quota store (config/database.js)

`daily_quota` holds one row per UTC date with an `emails_sent` counter.  All
claims here are about call sequences within a single UTC day, so the state is
the single counter for today's date (a missing row reads as `0`).  The
configured limit `parseInt(process.env.DAILY_EMAIL_LIMIT) || 250` is a `limit`
parameter. -/

/-- Result object of `canSendEmails(requestedCount)`:
`{ canSend, currentCount, limit, remaining, requestedCount }`.
`remaining = limit - currentCount` may be negative, hence `Int`. -/
structure QuotaCheck where
  canSend : Bool
  currentCount : Nat
  limit : Nat
  remaining : Int
  requestedCount : Nat
  deriving Repr, DecidableEq

/-- Source `canSendEmails(requestedCount)`: pure read of today's counter;
`canSend = (remaining >= requestedCount)`. -/
def canSendEmails (limit counter requested : Nat) : QuotaCheck :=
  let remaining : Int := (limit : Int) - (counter : Int)
  { canSend := decide ((requested : Int) ≤ remaining)
    currentCount := counter
    limit := limit
    remaining := remaining
    requestedCount := requested }

/-- Source `incrementDailyCount(count)`: the SQL upsert
`INSERT ... ON CONFLICT(date) DO UPDATE SET emails_sent = emails_sent + ?`.
It adds `count` unconditionally; no ceiling is checked at the write. -/
def incrementDailyCount (counter count : Nat) : Nat :=
  counter + count

/-- Source `reserveQuota(count)` (services/quota.js): read `canSendEmails(count)`;
throw (`none`) if it denies, otherwise run `incrementDailyCount(count)`.
The returned value is the new stored counter (the source also returns
`{ reserved, newTotal, remaining }` computed from the same read). -/
def reserveQuota (limit counter count : Nat) : Option Nat :=
  let validation := canSendEmails limit counter count
  if validation.canSend then some (incrementDailyCount counter count) else none

/-- Run a sequence of sequential `reserveQuota` calls within one UTC day.
Returns the final stored counter and, per call, whether it succeeded. -/
def runReserves (limit : Nat) : Nat → List Nat → Nat × List Bool
  | counter, [] => (counter, [])
  | counter, count :: rest =>
    match reserveQuota limit counter count with
    | some counter' =>
      let r := runReserves limit counter' rest
      (r.1, true :: r.2)
    | none =>
      let r := runReserves limit counter rest
      (r.1, false :: r.2)

/-- Sum of the counts of the calls that succeeded. -/
def succeededSum : List Nat → List Bool → Nat
  | [], _ => 0
  | _, [] => 0
  | count :: cs, ok :: oks =>
    (if ok then count else 0) + succeededSum cs oks

/- ## Fine-grained model of `reserveQuota` for the race claim

`reserveQuota` issues two separate database operations: the
`canSendEmails` read (check) and the `incrementDailyCount` upsert (write).
To examine whether the ceiling is enforced "inside the same atomic step as
the increment", each call is modelled as those two atomic sub-steps, and two
calls are run under an arbitrary interleaving.  The actual Node.js runtime
executes the whole (synchronous) `reserveQuota` body without suspension, i.e.
only schedules where each call's two steps are adjacent. -/

/-- One in-flight `reserveQuota(count)` call.
`pc = 0`: check not yet executed; `pc = 1`: check passed, increment pending;
`pc = 2`: finished (`succeeded` tells how). -/
structure ResCall where
  count : Nat
  pc : Nat
  succeeded : Bool
  deriving Repr, DecidableEq

/-- Execute one atomic sub-step of a `reserveQuota` call against the shared
counter: first the `canSendEmails` read, then (only if it passed) the
unconditional `incrementDailyCount` write. -/
def stepReserve (limit : Nat) (c : ResCall) (counter : Nat) : ResCall × Nat :=
  if c.pc = 0 then
    if (canSendEmails limit counter c.count).canSend then
      ({ c with pc := 1 }, counter)
    else
      ({ c with pc := 2, succeeded := false }, counter)
  else if c.pc = 1 then
    ({ c with pc := 2, succeeded := true }, incrementDailyCount counter c.count)
  else
    (c, counter)

/-- Run two concurrent `reserveQuota` calls under a schedule
(`true` = step call A, `false` = step call B). -/
def runSched (limit : Nat) : List Bool → ResCall → ResCall → Nat → ResCall × ResCall × Nat
  | [], a, b, counter => (a, b, counter)
  | true :: rest, a, b, counter =>
    let s := stepReserve limit a counter
    runSched limit rest s.1 b s.2
  | false :: rest, a, b, counter =>
    let s := stepReserve limit b counter
    runSched limit rest a s.1 s.2

/-- A fresh `reserveQuota(count)` call that has not run yet. -/
def freshCall (count : Nat) : ResCall :=
  { count := count, pc := 0, succeeded := false }

/- ## Provider capacity probe and `validateSendRequest` (services/ses.js, services/quota.js)

`getSESQuota` calls AWS `GetSendQuota`; the outcome of that external call is a
parameter.  On success it returns the raw window numbers plus
`remaining = Max24HourSend - SentLast24Hours`; on failure `success: false`. -/

/-- Outcome of the external `GetSendQuotaCommand` call. -/
inductive SESProbe where
  | ok (max24HourSend sentLast24Hours maxSendRate : Int)
  | failed (errMsg : List Char)
  deriving Repr, DecidableEq

/-- The `quota` object built by `getSESQuota` on success. -/
structure AwsQuota where
  max24HourSend : Int
  sentLast24Hours : Int
  maxSendRate : Int
  remaining : Int
  deriving Repr, DecidableEq

/-- Return value of `getSESQuota`. -/
structure SESQuotaResult where
  success : Bool
  quota : Option AwsQuota
  error : Option (List Char)
  deriving Repr, DecidableEq

/-- Source `getSESQuota()`: wrap the AWS response, computing
`remaining = Max24HourSend - SentLast24Hours`, or report failure. -/
def getSESQuota : SESProbe → SESQuotaResult
  | .ok max24 sent rate =>
    { success := true
      quota := some
        { max24HourSend := max24
          sentLast24Hours := sent
          maxSendRate := rate
          remaining := max24 - sent }
      error := none }
  | .failed e => { success := false, quota := none, error := some e }

/-- Return value of `checkSESCapacity`.  The `warning` field is the fixed
string `'Could not verify AWS quota. Local limits still apply.'`; it is
modelled as a `Bool` flag (`warnUnverified`) carrying no other data. -/
structure SESCapacity where
  canSend : Bool
  awsQuota : Option AwsQuota
  warnUnverified : Bool
  quotaError : Option (List Char)
  deriving Repr, DecidableEq

/-- Source `checkSESCapacity(requestedCount)`: if the quota probe failed, allow
(`canSend: true`) with the warning — the local quota still protects; otherwise
`canSend = quota.remaining >= requestedCount`. -/
def checkSESCapacity (requested : Nat) (p : SESProbe) : SESCapacity :=
  let quotaResult := getSESQuota p
  if quotaResult.success then
    match quotaResult.quota with
    | some q =>
      { canSend := decide ((requested : Int) ≤ q.remaining)
        awsQuota := some q
        warnUnverified := false
        quotaError := none }
    | none =>
      -- unreachable: success implies the quota object is present
      { canSend := true, awsQuota := none, warnUnverified := false, quotaError := none }
  else
    { canSend := true
      awsQuota := none
      warnUnverified := true
      quotaError := quotaResult.error }

/-- Structured deny reason types pushed by `validateSendRequest`
(the human-readable `message`/`detail` strings carry the same numbers that
already appear in `quotaDetails`, and are not modelled separately). -/
inductive ReasonType where
  | LOCAL_QUOTA_EXCEEDED
  | AWS_QUOTA_EXCEEDED
  deriving Repr, DecidableEq

/-- Advisory warnings collected by `validateSendRequest`:
the probe-failure warning forwarded from `checkSESCapacity`, and the
low-quota warning (which carries the remaining count). -/
inductive QuotaWarning where
  | awsUnverified
  | lowQuota (remaining : Int)
  deriving Repr, DecidableEq

/-- JavaScript `aws?.remaining || localRemaining`: the local value when the
quota object is absent, **or when `remaining` is the falsy number `0`**. -/
def jsOrRemaining : Option AwsQuota → Int → Int
  | some q, dflt => if q.remaining = 0 then dflt else q.remaining
  | none, dflt => dflt

/-- Return value of `validateSendRequest` (the `quotaDetails` echo of
`limit`/`used`/`remaining`/aws numbers is recoverable from the inputs and is
not duplicated here). -/
structure ValidationResult where
  canSend : Bool
  requestedCount : Nat
  availableCount : Int
  reasons : List ReasonType
  warnings : List QuotaWarning
  deriving Repr, DecidableEq

/-- Source `validateSendRequest(requestedCount)`: combine the local `canSendEmails`
check with the AWS capacity probe; collect one deny reason per failed check,
advisory warnings, and
`availableCount = Math.min(localQuota.remaining, sesCapacity.awsQuota?.remaining || localQuota.remaining)`. -/
def validateSendRequest (limit used requested : Nat) (p : SESProbe) : ValidationResult :=
  let localQuota := canSendEmails limit used requested
  let sesCapacity := checkSESCapacity requested p
  let reasons :=
    (if !localQuota.canSend then [ReasonType.LOCAL_QUOTA_EXCEEDED] else []) ++
    (if !sesCapacity.canSend then [ReasonType.AWS_QUOTA_EXCEEDED] else [])
  let canSend := localQuota.canSend && sesCapacity.canSend
  let warnings :=
    (if sesCapacity.warnUnverified then [QuotaWarning.awsUnverified] else []) ++
    (if localQuota.remaining < 50 ∧ (requested : Int) < localQuota.remaining then
      [QuotaWarning.lowQuota localQuota.remaining]
    else [])
  { canSend := canSend
    requestedCount := requested
    availableCount := min localQuota.remaining (jsOrRemaining sesCapacity.awsQuota localQuota.remaining)
    reasons := reasons
    warnings := warnings }

/- ## Personalization engine (services/ses.js `personalizeContent`)

`text.replace(/\{first_name\}/gi, contact.first_name || '') ...` — four chained
global case-insensitive replacements.  JavaScript strings are `List Char`;
`String.prototype.replace` with a string replacement expands the special
patterns `$$`, `$&`, `$`+backquote, `$`+apostrophe, so the replacement text is
expanded at each match.  The scan is leftmost-match, resuming after the
matched text, exactly as a global regex with a non-empty literal pattern. -/

/-- ASCII lower-casing, as the `i` regex flag sees the pattern characters. -/
def toLowerCh (c : Char) : Char :=
  if 'A' ≤ c ∧ c ≤ 'Z' then Char.ofNat (c.toNat + 32) else c

/-- Matching `lowerEq pat s`: the first `pat.length` characters of `s` match the
(lower-case) literal pattern `pat` case-insensitively. -/
def lowerEq : List Char → List Char → Bool
  | [], _ => true
  | _ :: _, [] => false
  | p :: ps, c :: cs => (toLowerCh c == p) && lowerEq ps cs

/-- Matching `containsCI pat s`: some position of `s` matches `pat` case-insensitively. -/
def containsCI (pat : List Char) : List Char → Bool
  | [] => lowerEq pat []
  | c :: rest => lowerEq pat (c :: rest) || containsCI pat rest

/-- The backquote character (code 96), written by code point. -/
def bqChar : Char := Char.ofNat 96

/-- The apostrophe character (code 39), written by code point. -/
def apChar : Char := Char.ofNat 39

/-- JavaScript replacement-string expansion at one match: `m` is the matched
slice, `bef` the part of the original string before the match, `aft` the part
after it.  `$$` inserts `$`; `$&` inserts `m`; `$`+backquote inserts `bef`;
`$`+apostrophe inserts `aft`; any other `$`-sequence is literal (the patterns
here have no capture groups). -/
def expandRepl (m bef aft : List Char) : List Char → List Char
  | [] => []
  | c :: t =>
    if c = '$' then
      match t with
      | [] => ['$']
      | d :: t2 =>
        if d = '$' then '$' :: expandRepl m bef aft t2
        else if d = '&' then m ++ expandRepl m bef aft t2
        else if d = bqChar then bef ++ expandRepl m bef aft t2
        else if d = apChar then aft ++ expandRepl m bef aft t2
        else '$' :: d :: expandRepl m bef aft t2
    else c :: expandRepl m bef aft t

/-- Scanner for one global case-insensitive `replace` pass.  `bef` accumulates
the original characters already scanned (needed by `$`+backquote).  The fuel
is an upper bound on the input length; every step consumes at least one input
character and one unit of fuel, so `fuel = input.length` suffices. -/
def jsReplGo (pat rep : List Char) : Nat → List Char → List Char → List Char
  | 0, _, _ => []
  | _ + 1, _, [] => []
  | fuel + 1, bef, c :: rest =>
    if lowerEq pat (c :: rest) then
      let m := (c :: rest).take pat.length
      let aft := (c :: rest).drop pat.length
      expandRepl m bef aft rep ++ jsReplGo pat rep fuel (bef ++ m) aft
    else
      c :: jsReplGo pat rep fuel (bef ++ [c]) rest

/-- Source `s.replace(/pat/gi, rep)` for a non-empty literal lower-case pattern. -/
def jsReplaceCI (pat rep s : List Char) : List Char :=
  match pat with
  | [] => s
  | _ :: _ => jsReplGo pat rep s.length [] s

/-- Contact fields as the personalization code sees them: each may be absent
(`undefined`/SQL `NULL`). -/
structure Fields where
  first_name : Option (List Char)
  last_name : Option (List Char)
  company_name : Option (List Char)
  email : Option (List Char)
  deriving Repr, DecidableEq

/-- JavaScript `field || ''` (an absent field — and an empty one — turns into
the empty string). -/
def jsOrEmptyStr : Option (List Char) → List Char
  | some s => s
  | none => []

/-- The literal pattern of `/\{first_name\}/gi`. -/
def firstNameTok : List Char := "\x7bfirst_name\x7d".toList

/-- The literal pattern of `/\{last_name\}/gi`. -/
def lastNameTok : List Char := "\x7blast_name\x7d".toList

/-- The literal pattern of `/\{company_name\}/gi`. -/
def companyNameTok : List Char := "\x7bcompany_name\x7d".toList

/-- The literal pattern of `/\{email\}/gi`. -/
def emailTok : List Char := "\x7bemail\x7d".toList

/-- Source `personalizeContent(text, contact)`: `if (!text) return text;` then the
four chained global case-insensitive replacements, in source order
(first_name, last_name, company_name, email). -/
def personalizeContent (text : List Char) (contact : Fields) : List Char :=
  if text = [] then text
  else
    jsReplaceCI emailTok (jsOrEmptyStr contact.email)
      (jsReplaceCI companyNameTok (jsOrEmptyStr contact.company_name)
        (jsReplaceCI lastNameTok (jsOrEmptyStr contact.last_name)
          (jsReplaceCI firstNameTok (jsOrEmptyStr contact.first_name) text)))

/-- Modelled from the spec: "Replace case-insensitive placeholder tokens
`{first_name}`, `{last_name}`, `{company_name}`, `{email}` with the
corresponding field value, or empty string if absent … Unrecognized
placeholder syntax is left verbatim".  A single left-to-right scan that
substitutes each token occurrence once and copies everything else, for
comparison against `personalizeContent`. -/
def specSubstGo (f : Fields) : Nat → List Char → List Char
  | 0, _ => []
  | _ + 1, [] => []
  | fuel + 1, c :: rest =>
    if lowerEq firstNameTok (c :: rest) then
      jsOrEmptyStr f.first_name ++ specSubstGo f fuel ((c :: rest).drop firstNameTok.length)
    else if lowerEq lastNameTok (c :: rest) then
      jsOrEmptyStr f.last_name ++ specSubstGo f fuel ((c :: rest).drop lastNameTok.length)
    else if lowerEq companyNameTok (c :: rest) then
      jsOrEmptyStr f.company_name ++ specSubstGo f fuel ((c :: rest).drop companyNameTok.length)
    else if lowerEq emailTok (c :: rest) then
      jsOrEmptyStr f.email ++ specSubstGo f fuel ((c :: rest).drop emailTok.length)
    else c :: specSubstGo f fuel rest

/-- Single-pass simultaneous token substitution (the specification's reading
of `personalize`). -/
def specSubst (f : Fields) (s : List Char) : List Char :=
  specSubstGo f s.length s

/-- Source `textBody = personalizedBody.replace(/<[^>]*>/g, '')`: find the suffix
after the first `>`, if any. -/
def afterGt : List Char → Option (List Char)
  | [] => none
  | c :: t => if c = '>' then some t else afterGt t

/-- Scanner for the tag-stripping pass (`/<[^>]*>/g` replaced by `''`):
a `<` with a later `>` removes everything through that `>`; a `<` with no
closing `>` does not match and is kept. -/
def stripTagsGo : Nat → List Char → List Char
  | 0, _ => []
  | _ + 1, [] => []
  | fuel + 1, c :: rest =>
    if c = '<' then
      match afterGt rest with
      | some rest' => stripTagsGo fuel rest'
      | none => c :: stripTagsGo fuel rest
    else c :: stripTagsGo fuel rest

/-- Source `html.replace(/<[^>]*>/g, '')`. -/
def stripTags (s : List Char) : List Char :=
  stripTagsGo s.length s

/- ## Single-send and error normalization (services/ses.js `sendEmail`)

The actual SES network call is the external collaborator; its outcome for a
given recipient is a parameter (`SendOutcome`).  `sendEmail` is modelled under
a configured `SES_FROM_EMAIL` (the unconfigured case throws before anything
else and is outside every claim considered here). -/

/-- Outcome of one provider `send` call: a message id, or an error with the
provider's `error.name` and `error.message`. -/
inductive SendOutcome where
  | ok (messageId : List Char)
  | err (name message : List Char)
  deriving Repr, DecidableEq

/-- Test for the `ok` constructor. -/
def SendOutcome.isOk : SendOutcome → Bool
  | .ok _ => true
  | .err _ _ => false

/-- Case-sensitive prefix test (JavaScript `String.prototype.includes` is
case-sensitive). -/
def plainPrefixEq : List Char → List Char → Bool
  | [], _ => true
  | _ :: _, [] => false
  | p :: ps, c :: cs => (c == p) && plainPrefixEq ps cs

/-- Source `haystack.includes(needle)`. -/
def containsSub (pat : List Char) : List Char → Bool
  | [] => pat.isEmpty
  | c :: rest => plainPrefixEq pat (c :: rest) || containsSub pat rest

/-- The sandbox-restriction message (interpolates the recipient address). -/
def sandboxMsg (toAddr : List Char) : List Char :=
  "Email address ".toList ++ toAddr ++
    " is not verified. In SES sandbox mode, both sender AND recipient must be verified.".toList

/-- The throttling message. -/
def throttleMsg : List Char :=
  "AWS SES is throttling requests. Please slow down or wait.".toList

/-- The table-driven error normalization in `sendEmail`'s catch block:
`MessageRejected` whose message mentions `not verified` maps to the sandbox
message, `Throttling` maps to the throttling message, everything else passes
the provider's message through. -/
def friendlyError (toAddr name message : List Char) : List Char :=
  if name = "MessageRejected".toList then
    if containsSub "not verified".toList message then sandboxMsg toAddr else message
  else if name = "Throttling".toList then throttleMsg
  else message

/-- What `sendEmail` resolves with: `{ success, messageId }` or
`{ success: false, error: friendlyError }`. -/
structure SendResult where
  success : Bool
  messageId : Option (List Char)
  error : Option (List Char)
  deriving Repr, DecidableEq

/-- Source `sendEmail(to, …)` given the provider outcome for this call. -/
def sendEmailModel (toAddr : List Char) (outcome : SendOutcome) : SendResult :=
  match outcome with
  | .ok mid => { success := true, messageId := some mid, error := none }
  | .err name msg =>
    { success := false, messageId := none, error := some (friendlyError toAddr name msg) }

/- ## Data model rows and database state -/

/-- A `contacts` row, as the send pipeline reads it. -/
structure Contact where
  id : Nat
  fields : Fields
  deriving Repr, DecidableEq

/-- The recipient address used for a contact (`contact.email`). -/
def Contact.emailAddr (c : Contact) : List Char :=
  jsOrEmptyStr c.fields.email

/-- A `sent_emails` row as written by the dispatch loop (timestamps are
database defaults and are not modelled). -/
structure SentRecord where
  campaignId : Nat
  contactId : Nat
  trackingId : List Char
  subject : List Char
  status : List Char
  errorMessage : Option (List Char)
  deriving Repr, DecidableEq

/-- Mutable database state touched by the send pipeline: today's
`daily_quota` counter, the `campaigns` rows (subject, body), the
`sent_emails` rows, and a count of provider `send` calls attempted (to state
"no send was attempted" results). -/
structure Db where
  quota : Nat
  campaigns : List (List Char × List Char)
  sentEmails : List SentRecord
  providerCalls : Nat
  deriving Repr, DecidableEq

/-- Source `result.error || null` when writing the record: an absent — or empty —
error string is stored as SQL `NULL`. -/
def jsOrNull : Option (List Char) → Option (List Char)
  | some s => if s = [] then none else some s
  | none => none

/- ## Dispatch loop (services/ses.js `sendBulkEmails`) -/

/-- An entry of `results.successful`. -/
structure SuccessEntry where
  contact : Contact
  messageId : List Char
  trackingId : List Char
  deriving Repr, DecidableEq

/-- An entry of `results.failed`. -/
structure FailEntry where
  contact : Contact
  error : List Char
  deriving Repr, DecidableEq

/-- The batch result returned by `sendBulkEmails`. -/
structure BulkResults where
  successful : List SuccessEntry
  failed : List FailEntry
  totalRequested : Nat
  deriving Repr, DecidableEq

/-- The per-recipient loop body of `sendBulkEmails`, iterated in list order:
generate a tracking id (`uuidv4()`, modelled by the generator `gen` applied to
the recipient's position), personalize subject and body, call the provider,
record the outcome row synchronously, and accumulate the success/failure
entry.  The fixed 100 ms inter-message delay suspends only this request and
has no state effect.  `i` is the position of the head contact in the batch. -/
def sendBulkLoop (subject htmlBody : List Char) (campaignId : Nat)
    (provider : Nat → SendOutcome) (gen : Nat → List Char) :
    List Contact → Nat → Db → List SuccessEntry × List FailEntry × Db
  | [], _, db => ([], [], db)
  | c :: rest, i, db =>
    let trackingId := gen i
    let personalizedSubject := personalizeContent subject c.fields
    let personalizedBody := personalizeContent htmlBody c.fields
    let _textBody := stripTags personalizedBody
    let result := sendEmailModel c.emailAddr (provider i)
    let record : SentRecord :=
      { campaignId := campaignId
        contactId := c.id
        trackingId := trackingId
        subject := personalizedSubject
        status := if result.success then "sent".toList else "failed".toList
        errorMessage := jsOrNull result.error }
    let db' :=
      { db with
          sentEmails := db.sentEmails ++ [record]
          providerCalls := db.providerCalls + 1 }
    let r := sendBulkLoop subject htmlBody campaignId provider gen rest (i + 1) db'
    if result.success then
      ({ contact := c
         messageId := jsOrEmptyStr result.messageId
         trackingId := trackingId } :: r.1, r.2.1, r.2.2)
    else
      (r.1, { contact := c, error := jsOrEmptyStr result.error } :: r.2.1, r.2.2)

/-- Source `sendBulkEmails(contacts, subject, htmlBody, campaignId, db)`. -/
def sendBulkEmails (contacts : List Contact) (subject htmlBody : List Char)
    (campaignId : Nat) (provider : Nat → SendOutcome) (gen : Nat → List Char)
    (db : Db) : BulkResults × Db :=
  let r := sendBulkLoop subject htmlBody campaignId provider gen contacts 0 db
  ({ successful := r.1, failed := r.2.1, totalRequested := contacts.length }, r.2.2)

/- ## Send orchestrator: `POST /api/emails/send` behind `quotaGuard` -/

/-- The request body `{ contactIds, subject, body }`. -/
structure SendRequest where
  contactIds : List Nat
  subject : List Char
  body : List Char
  deriving Repr, DecidableEq

/-- Whitespace for `String.prototype.trim` (ASCII part; the claims use only
these characters). -/
def isJsSpace (c : Char) : Bool :=
  c = ' ' || c = '\t' || c = '\n' || c = '\r' || c = '\x0b' || c = '\x0c'

/-- Source `s.trim()`. -/
def trimStr (s : List Char) : List Char :=
  ((s.dropWhile isJsSpace).reverse.dropWhile isJsSpace).reverse

/-- Source `SELECT * FROM contacts WHERE id IN (…)`: the table rows (in table order,
each row once) whose id is among the requested ids; ids that resolve to no
row are dropped silently. -/
def resolveContacts (contactsDb : List Contact) (ids : List Nat) : List Contact :=
  contactsDb.filter (fun c => ids.contains c.id)

/-- The distinct responses of the route (HTTP status in parentheses):
validation failure (400), no valid contacts (404), blocked by the quota-guard
middleware (429 `QUOTA_EXCEEDED`), reservation failure
(429 `QUOTA_RESERVATION_FAILED`), or the completed campaign (200). -/
inductive SendResponse where
  | validationError (msg : List Char)
  | noValidContacts
  | quotaBlocked
  | reservationFailed
  | completed (campaignId : Nat) (results : BulkResults) (warnings : List QuotaWarning)
  deriving Repr, DecidableEq

/-- Test for `validationError`. -/
def SendResponse.isValidationError : SendResponse → Bool
  | .validationError _ => true
  | _ => false

/-- Test for `completed`. -/
def SendResponse.isCompleted : SendResponse → Bool
  | .completed _ _ _ => true
  | _ => false

/-- Route `POST /api/emails/send` with the `quotaGuard` middleware in front.

The guard reads `req.body.contacts?.length || req.body.contactIds?.length || 1`
(the send route has no `contacts` field, and `0` is falsy, so an empty id list
counts as a request for `1`), runs `validateSendRequest`, and answers 429 when
it denies.  The handler then validates the fields, resolves the contacts,
reserves quota for the **resolved** count, creates the campaign row
(`campaignId` is the row id of the inserted row) and runs the dispatch loop. -/
def handleSend (limit : Nat) (probe : SESProbe) (contactsDb : List Contact)
    (provider : Nat → SendOutcome) (gen : Nat → List Char)
    (req : SendRequest) (db : Db) : SendResponse × Db :=
  let requestedCount := if req.contactIds.length = 0 then 1 else req.contactIds.length
  let validation := validateSendRequest limit db.quota requestedCount probe
  if !validation.canSend then (.quotaBlocked, db)
  else if req.contactIds = [] then
    (.validationError "Please select at least one contact".toList, db)
  else if trimStr req.subject = [] then
    (.validationError "Email subject is required".toList, db)
  else if trimStr req.body = [] then
    (.validationError "Email body is required".toList, db)
  else
    let contacts := resolveContacts contactsDb req.contactIds
    if contacts = [] then (.noValidContacts, db)
    else
      match reserveQuota limit db.quota contacts.length with
      | none => (.reservationFailed, db)
      | some newQuota =>
        let db1 :=
          { db with
              quota := newQuota
              campaigns := db.campaigns ++ [(req.subject, req.body)] }
        let campaignId := db1.campaigns.length
        let r := sendBulkEmails contacts req.subject req.body campaignId provider gen db1
        (.completed campaignId r.1 validation.warnings, r.2)

/- ## Open-tracking endpoint (routes/tracking.js `GET /open/:trackingId`)

The user-agent heuristics (device/client sniffing) are the excluded
collaborator; the claim is about the image response.  The handler sets the
image headers, schedules the event write with `setImmediate`, and sends the
pixel; the deferred callback looks up the `sent_emails` row, suppresses
pre-scan opens (within 3 minutes of the send: `(now-sent)/1000/60 < 3`) —
issuing a second, already-completed `send` in that branch — suppresses
duplicates from the same address within 5 minutes, and otherwise inserts the
`email_opens` row; every throw in the callback is caught and logged. -/

/-- The base64 payload of the fixed 1×1 transparent GIF constant. -/
def TRACKING_PIXEL : List Char :=
  "R0lGODlhAQABAIAAAAAAAP///yH5BAEAAAAALAAAAAABAAEAAAIBRAA7".toList

/-- The `sent_emails` row found for a tracking id (id and send time in ms). -/
structure OpenRow where
  sentEmailId : Nat
  sentAtMs : Int
  deriving Repr, DecidableEq

/-- Environment of one request to the open endpoint: the row lookup result
(`none` when the trackingId matches no `sent_emails` row), the clock, the
result of the 5-minute duplicate query, and whether the insert throws. -/
structure OpenCtx where
  row : Option OpenRow
  nowMs : Int
  recentDup : Bool
  insertFails : Bool
  deriving Repr, DecidableEq

/-- The open endpoint: returns the list of bodies passed to `res.send`, in
order (the client receives the first; a second send, attempted only in the
pre-scan branch, fails after completion and is swallowed by the catch), and
whether an `email_opens` row was written. -/
def trackOpen (ctx : OpenCtx) : List (List Char) × Bool :=
  match ctx.row with
  | none => ([TRACKING_PIXEL], false)
  | some r =>
    if ctx.nowMs - r.sentAtMs < 180000 then
      ([TRACKING_PIXEL, TRACKING_PIXEL], false)
    else if ctx.recentDup then ([TRACKING_PIXEL], false)
    else if ctx.insertFails then ([TRACKING_PIXEL], false)
    else ([TRACKING_PIXEL], true)

/-- The `sent_emails` row the dispatch loop writes for the recipient at
position `i` of the batch. -/
def mkSentRecord (subject : List Char) (campaignId : Nat)
    (provider : Nat → SendOutcome) (gen : Nat → List Char)
    (i : Nat) (c : Contact) : SentRecord :=
  { campaignId := campaignId
    contactId := c.id
    trackingId := gen i
    subject := personalizeContent subject c.fields
    status := if (provider i).isOk then "sent".toList else "failed".toList
    errorMessage :=
      match provider i with
      | .ok _ => none
      | .err name msg => jsOrNull (some (friendlyError c.emailAddr name msg)) }

/- ## Well-formed templates for the personalization refinement claim

`personalizeContent` runs four *sequential* passes, so a field value that
itself contains a placeholder token (or a `$`-pattern) is re-substituted by a
later pass, and brace syntax can be assembled across a replacement.  The
refinement against the specification's simultaneous substitution therefore
works over templates given as a list of items — plain characters that are not
an opening brace, and occurrences of recognized tokens (in arbitrary case) —
and field values free of braces and `$`. -/

/-- The four recognized tokens. -/
inductive TkId where
  | fn | ln | cn | em
  deriving Repr, DecidableEq

/-- The (lower-case) pattern of each token. -/
def canonTok : TkId → List Char
  | .fn => firstNameTok
  | .ln => lastNameTok
  | .cn => companyNameTok
  | .em => emailTok

/-- The replacement value of each token for a given contact. -/
def tokVal (f : Fields) : TkId → List Char
  | .fn => jsOrEmptyStr f.first_name
  | .ln => jsOrEmptyStr f.last_name
  | .cn => jsOrEmptyStr f.company_name
  | .em => jsOrEmptyStr f.email

/-- An item of a well-formed template: a plain character, or one token
occurrence with its actual (possibly differently-cased) characters. -/
inductive PItem where
  | ch (c : Char)
  | tk (id : TkId) (act : List Char)
  deriving Repr, DecidableEq

/-- The template string denoted by an item list. -/
def flattenP : List PItem → List Char
  | [] => []
  | .ch c :: l => c :: flattenP l
  | .tk _ act :: l => act ++ flattenP l

/-- The opening brace, by code point. -/
def lbraceCh : Char := Char.ofNat 123

/-- A well-formed item: a plain character does not (even lower-cased) open a
token, and a token item's characters lower-case to its pattern. -/
def wfItem : PItem → Bool
  | .ch c => !(toLowerCh c == lbraceCh)
  | .tk id act => act.map toLowerCh == canonTok id

/-- A field value that cannot interfere with later passes: no character opens
a brace (lower-cased) and none is `$`. -/
def plainChars (v : List Char) : Bool :=
  v.all (fun c => !(toLowerCh c == lbraceCh) && !(c == '$'))

/-- Replace one token's occurrences by its value, itemwise (the effect of one
`replace` pass on a well-formed template). -/
def substTk (id : TkId) (v : List Char) : PItem → List PItem
  | .ch c => [.ch c]
  | .tk id2 act => if id2 = id then v.map PItem.ch else [.tk id2 act]

/-- Replace every token by its value, itemwise (the effect of the
specification's simultaneous substitution). -/
def substAll (f : Fields) : PItem → List PItem
  | .ch c => [.ch c]
  | .tk id _ => (tokVal f id).map PItem.ch

/-- Apply an itemwise substitution over a template. -/
def applySubst (f : PItem → List PItem) : List PItem → List PItem
  | [] => []
  | it :: l => f it ++ applySubst f l

/-- Concrete sample fields for witness instances. -/
def sampleFields : Fields :=
  { first_name := some "Ann".toList
    last_name := none
    company_name := none
    email := some "a@b.c".toList }

/-- A concrete contact row for witness instances. -/
def sampleContact : Contact :=
  { id := 7, fields := sampleFields }

/-- A fresh database state for witness instances. -/
def emptyDb : Db :=
  { quota := 0, campaigns := [], sentEmails := [], providerCalls := 0 }

/-- A provider that fails every call, for witness instances. -/
def failProvider : Nat → SendOutcome :=
  fun _ => SendOutcome.err "X".toList "boom".toList

/-- A deterministic tracking-id generator for witness instances. -/
def sampleGen : Nat → List Char :=
  fun _ => "t0".toList

/-- A provider that fails exactly the second recipient (index 1), for
witness instances. -/
def mixedProvider : Nat → SendOutcome :=
  fun i => if i = 1 then SendOutcome.err "X".toList "boom".toList
    else SendOutcome.ok "mid".toList

/-- A context for the open endpoint whose insert throws, for witness
instances. -/
def sampleOpenCtx : OpenCtx :=
  { row := some { sentEmailId := 1, sentAtMs := 0 }
    nowMs := 900000
    recentDup := false
    insertFails := true }

/- ## Theorems -/

/-- Lemma: `reserveQuota` in arithmetic form: succeed exactly when the requested
count still fits under the limit. -/
theorem reserveQuota_eq (limit counter count : Nat) :
    reserveQuota limit counter count =
      if counter + count ≤ limit then some (counter + count) else none := by
  unfold reserveQuota canSendEmails incrementDailyCount
  split_ifs <;> simp_all <;> omega

/-- C1 (amended: the initial counter must not already exceed the limit).
Within one UTC day, for every sequence of sequential `reserveQuota` calls,
the stored `daily_quota` counter equals its initial value plus the sum of the
counts of the calls that succeeded; provided the initial value is at most the
configured limit, the counter never exceeds the limit; and a failed
reservation leaves the counter unchanged. -/
theorem c1_quota_monotonicity (limit init : Nat) (calls : List Nat)
    (h : init ≤ limit) (counter count : Nat)
    (hfail : reserveQuota limit counter count = none) :
    (runReserves limit init calls).1 =
        init + succeededSum calls (runReserves limit init calls).2 ∧
    (runReserves limit init calls).1 ≤ limit ∧
    (runReserves limit counter [count]).1 = counter := by
  refine ⟨?_, ?_, ?_⟩
  · clear h
    induction calls generalizing init with
    | nil => simp [runReserves, succeededSum]
    | cons c rest ih =>
      rw [runReserves, reserveQuota_eq]
      split_ifs with hc
      · simpa [succeededSum] using by
          have := ih (init + c)
          omega
      · simpa [succeededSum] using ih init
  · induction calls generalizing init with
    | nil => simpa [runReserves]
    | cons c rest ih =>
      rw [runReserves, reserveQuota_eq]
      split_ifs with hc
      · exact ih (init + c) hc
      · exact ih init h
  · simp [runReserves, hfail]

/-- Witness for C1 at `limit = 250`, initial counter `0`, calls
`[100, 200, 50]` (the second call fails: `300 > 250`), and the failed call
`reserveQuota 250 200 100`. -/
theorem c1_quota_monotonicity_witness :
    ((0 : Nat) ≤ 250 ∧ reserveQuota 250 200 100 = none) ∧
    ((runReserves 250 0 [100, 200, 50]).1 =
        0 + succeededSum [100, 200, 50] (runReserves 250 0 [100, 200, 50]).2 ∧
    (runReserves 250 0 [100, 200, 50]).1 ≤ 250 ∧
    (runReserves 250 200 [100]).1 = 200) :=
  ⟨by decide, c1_quota_monotonicity 250 0 [100, 200, 50] (by decide) 200 100 (by decide)⟩

/-- C1 counterexample to the claim as stated: quantifying over *every* initial
counter value, the "never exceeds the configured limit" part fails — with
limit `250` and the counter already at `251` (e.g. after the configured
`DAILY_EMAIL_LIMIT` was lowered), the counter stays at `251 > 250` (every
reservation fails, so the sum equation still holds, but the bound does not). -/
theorem c1_counterexample :
    (runReserves 250 251 [1]).1 =
        251 + succeededSum [1] (runReserves 250 251 [1]).2 ∧
    250 < (runReserves 250 251 [1]).1 := by decide

/-- C2 counterexample to the claim as stated: the ceiling check is **not**
enforced inside the same atomic step as the counter increment — it is only the
`canSendEmails` read preceding the unconditional upsert.  Interleaving the two
database operations of two `reserveQuota(126)` calls (check A, check B,
increment A, increment B) on a fresh day with limit `250` makes **both**
succeed and drives the stored counter to `252 > 250`, which would be
impossible if the ceiling were re-checked atomically with the write. -/
theorem c2_race_counterexample :
    (runSched 250 [true, false, true, false]
        (freshCall 126) (freshCall 126) 0).1.succeeded = true ∧
    (runSched 250 [true, false, true, false]
        (freshCall 126) (freshCall 126) 0).2.1.succeeded = true ∧
    (runSched 250 [true, false, true, false]
        (freshCall 126) (freshCall 126) 0).2.2 = 252 ∧
    250 < (runSched 250 [true, false, true, false]
        (freshCall 126) (freshCall 126) 0).2.2 := by decide

/-- C2 (amended): the ceiling is enforced only by the `canSendEmails` read
that precedes the increment inside `reserveQuota`; because `reserveQuota` is
synchronous in the single-threaded runtime, its two database operations never
interleave between two requests, i.e. only serialized schedules occur.  Under
the serialized schedule, of two `reserveQuota(limit/2 + 1)` calls against a
fresh day (counter `0`, `limit ≥ 2`), exactly the first succeeds, the second
fails, and the stored counter is `limit/2 + 1 ≤ limit`. -/
theorem c2_race_serialized (limit : Nat) (h : 2 ≤ limit) :
    (runSched limit [true, true, false, false]
        (freshCall (limit / 2 + 1)) (freshCall (limit / 2 + 1)) 0).1.succeeded = true ∧
    (runSched limit [true, true, false, false]
        (freshCall (limit / 2 + 1)) (freshCall (limit / 2 + 1)) 0).2.1.succeeded = false ∧
    (runSched limit [true, true, false, false]
        (freshCall (limit / 2 + 1)) (freshCall (limit / 2 + 1)) 0).2.2 = limit / 2 + 1 ∧
    (runSched limit [true, true, false, false]
        (freshCall (limit / 2 + 1)) (freshCall (limit / 2 + 1)) 0).2.2 ≤ limit := by
  set c := limit / 2 + 1 with hc
  have s1 : stepReserve limit (freshCall c) 0 =
      ({ count := c, pc := 1, succeeded := false }, 0) := by
    have hd : ((c : Int) ≤ (limit : Int) - ((0 : Nat) : Int)) := by push_cast; omega
    simp [stepReserve, freshCall, canSendEmails, hd]
    omega
  have s2 : stepReserve limit { count := c, pc := 1, succeeded := false } 0 =
      ({ count := c, pc := 2, succeeded := true }, c) := by
    simp [stepReserve, canSendEmails, incrementDailyCount]
  have s3 : stepReserve limit (freshCall c) c =
      ({ count := c, pc := 2, succeeded := false }, c) := by
    have hd : ¬ ((c : Int) ≤ (limit : Int) - ((c : Nat) : Int)) := by push_cast; omega
    simp [stepReserve, freshCall, canSendEmails, hd]
  have s4 : stepReserve limit { count := c, pc := 2, succeeded := false } c =
      ({ count := c, pc := 2, succeeded := false }, c) := by
    simp [stepReserve, canSendEmails]
  simp [runSched, s1, s2, s3, s4]
  omega

/-- Witness for C2 at `limit = 250` (so `limit/2 + 1 = 126`). -/
theorem c2_race_serialized_witness :
    (2 : Nat) ≤ 250 ∧
    ((runSched 250 [true, true, false, false]
        (freshCall (250 / 2 + 1)) (freshCall (250 / 2 + 1)) 0).1.succeeded = true ∧
    (runSched 250 [true, true, false, false]
        (freshCall (250 / 2 + 1)) (freshCall (250 / 2 + 1)) 0).2.1.succeeded = false ∧
    (runSched 250 [true, true, false, false]
        (freshCall (250 / 2 + 1)) (freshCall (250 / 2 + 1)) 0).2.2 = 250 / 2 + 1 ∧
    (runSched 250 [true, true, false, false]
        (freshCall (250 / 2 + 1)) (freshCall (250 / 2 + 1)) 0).2.2 ≤ 250) :=
  ⟨by decide, c2_race_serialized 250 (by decide)⟩

/-- C6 (amended): on a failed provider probe, `validateSendRequest` fails open
for the provider layer only — `canSend` equals the local `canSendEmails`
verdict, no `AWS_QUOTA_EXCEEDED` deny reason is emitted, and the
probe-failure warning is appended — and the effective available count equals
`min(local remaining, provider remaining)` **when the probe succeeds with a
non-zero provider remaining**, and the local remaining otherwise (a provider
remaining of exactly `0` is the falsy number, so `|| localRemaining` falls
back to the local value). -/
theorem c6_fail_open (limit used requested : Nat) (e : List Char) (q : SESProbe) :
    ((validateSendRequest limit used requested (SESProbe.failed e)).canSend =
        (canSendEmails limit used requested).canSend ∧
      ReasonType.AWS_QUOTA_EXCEEDED ∉
        (validateSendRequest limit used requested (SESProbe.failed e)).reasons ∧
      QuotaWarning.awsUnverified ∈
        (validateSendRequest limit used requested (SESProbe.failed e)).warnings) ∧
    ((validateSendRequest limit used requested q).availableCount =
        match q with
        | SESProbe.failed _ => (canSendEmails limit used requested).remaining
        | SESProbe.ok max24 sent _ =>
          if max24 - sent ≠ 0 then
            min (canSendEmails limit used requested).remaining (max24 - sent)
          else (canSendEmails limit used requested).remaining) := by
  constructor
  · refine ⟨?_, ?_, ?_⟩
    · simp [validateSendRequest, checkSESCapacity, getSESQuota]
    · simp [validateSendRequest, checkSESCapacity, getSESQuota, canSendEmails]
    · simp [validateSendRequest, checkSESCapacity, getSESQuota]
  · cases q with
    | failed e' => simp [validateSendRequest, checkSESCapacity, getSESQuota, jsOrRemaining]
    | ok max24 sent rate =>
      by_cases h0 : max24 - sent = 0 <;>
        simp [validateSendRequest, checkSESCapacity, getSESQuota, jsOrRemaining, h0]

/-- C6 counterexample to the claim as stated: with the local counter fresh
(`used = 0`, limit `250`, local remaining `250`) and a **successful** probe
reporting `Max24HourSend = 100`, `SentLast24Hours = 100` (provider remaining
`0`), the claimed effective count `min(250, 0) = 0`, but the code returns
`250`: `awsQuota?.remaining || localRemaining` treats the falsy `0` as
absent. -/
theorem c6_counterexample :
    (validateSendRequest 250 0 5 (SESProbe.ok 100 100 14)).availableCount = 250 ∧
    min (canSendEmails 250 0 5).remaining ((100 : Int) - 100) = 0 := by decide

/-- C9: whatever the `sent_emails` lookup, pre-scan/duplicate suppression and
insert outcome, every body handed to `res.send` by the open-tracking endpoint
— in particular the first one, which the client receives — is the fixed 1×1
transparent GIF; failures in the event-writing path never alter the image
response. -/
theorem c9_tracking_pixel_always (ctx : OpenCtx) :
    (trackOpen ctx).1.head? = some TRACKING_PIXEL ∧
    ∀ b ∈ (trackOpen ctx).1, b = TRACKING_PIXEL := by
  obtain ⟨row, nowMs, dup, ins⟩ := ctx
  cases row with
  | none => simp [trackOpen]
  | some r =>
    simp only [trackOpen]
    split_ifs <;> simp

/-- Lemma: `sendEmail` reports success exactly when the provider call succeeded. -/
theorem sendEmailModel_success (toAddr : List Char) (o : SendOutcome) :
    (sendEmailModel toAddr o).success = o.isOk := by
  cases o <;> rfl

/-- Splitting a list by a predicate accounts for every element. -/
theorem length_filter_add_length_filter_not {α : Type} (p : α → Bool) (l : List α) :
    (l.filter p).length + (l.filter (fun a => !p a)).length = l.length := by
  induction l with
  | nil => rfl
  | cons a t ih =>
    by_cases h : p a <;> simp [List.filter, h, ← ih] <;> omega

/-- The dispatch loop never touches the quota counter. -/
theorem sendBulkLoop_quota (subject body : List Char) (campaignId : Nat)
    (provider : Nat → SendOutcome) (gen : Nat → List Char) :
    ∀ (contacts : List Contact) (i : Nat) (db : Db),
      (sendBulkLoop subject body campaignId provider gen contacts i db).2.2.quota = db.quota
  | [], _, _ => rfl
  | c :: rest, i, db => by
    simp only [sendBulkLoop]
    split <;>
      exact sendBulkLoop_quota subject body campaignId provider gen rest (i + 1) _

/-- The dispatch loop never touches the campaign rows. -/
theorem sendBulkLoop_campaigns (subject body : List Char) (campaignId : Nat)
    (provider : Nat → SendOutcome) (gen : Nat → List Char) :
    ∀ (contacts : List Contact) (i : Nat) (db : Db),
      (sendBulkLoop subject body campaignId provider gen contacts i db).2.2.campaigns =
        db.campaigns
  | [], _, _ => rfl
  | c :: rest, i, db => by
    simp only [sendBulkLoop]
    split <;>
      exact sendBulkLoop_campaigns subject body campaignId provider gen rest (i + 1) _

/-- The dispatch loop attempts exactly one provider call per recipient. -/
theorem sendBulkLoop_calls (subject body : List Char) (campaignId : Nat)
    (provider : Nat → SendOutcome) (gen : Nat → List Char) :
    ∀ (contacts : List Contact) (i : Nat) (db : Db),
      (sendBulkLoop subject body campaignId provider gen contacts i db).2.2.providerCalls =
        db.providerCalls + contacts.length
  | [], _, _ => rfl
  | c :: rest, i, db => by
    simp only [sendBulkLoop]
    split <;>
      · rw [sendBulkLoop_calls subject body campaignId provider gen rest (i + 1)]
        simp
        omega

/-- The dispatch loop appends exactly one `sent_emails` row per recipient, in
batch order, and each row is the expected one. -/
theorem sendBulkLoop_sent (subject body : List Char) (campaignId : Nat)
    (provider : Nat → SendOutcome) (gen : Nat → List Char) :
    ∀ (contacts : List Contact) (i : Nat) (db : Db),
      (sendBulkLoop subject body campaignId provider gen contacts i db).2.2.sentEmails =
        db.sentEmails ++ (List.enumFrom i contacts).map
          (fun p => mkSentRecord subject campaignId provider gen p.1 p.2)
  | [], _, _ => by simp [sendBulkLoop, List.enumFrom]
  | c :: rest, i, db => by
    cases ho : provider i with
    | ok mid =>
      simp [sendBulkLoop, ho, sendEmailModel, List.enumFrom, mkSentRecord,
        SendOutcome.isOk, jsOrNull,
        sendBulkLoop_sent subject body campaignId provider gen rest (i + 1)]
    | err name msg =>
      simp [sendBulkLoop, ho, sendEmailModel, List.enumFrom, mkSentRecord,
        SendOutcome.isOk, jsOrNull,
        sendBulkLoop_sent subject body campaignId provider gen rest (i + 1)]

/-- The successes accumulated by the dispatch loop are exactly the recipients
whose provider call succeeded, in order. -/
theorem sendBulkLoop_ok (subject body : List Char) (campaignId : Nat)
    (provider : Nat → SendOutcome) (gen : Nat → List Char) :
    ∀ (contacts : List Contact) (i : Nat) (db : Db),
      (sendBulkLoop subject body campaignId provider gen contacts i db).1.map
          (fun e => e.contact) =
        ((List.enumFrom i contacts).filter (fun p => (provider p.1).isOk)).map
          (fun p => p.2)
  | [], _, _ => by simp [sendBulkLoop, List.enumFrom]
  | c :: rest, i, db => by
    cases ho : provider i with
    | ok mid =>
      simp [sendBulkLoop, ho, sendEmailModel, List.enumFrom, SendOutcome.isOk,
        sendBulkLoop_ok subject body campaignId provider gen rest (i + 1)]
    | err name msg =>
      simp [sendBulkLoop, ho, sendEmailModel, List.enumFrom, SendOutcome.isOk,
        sendBulkLoop_ok subject body campaignId provider gen rest (i + 1)]

/-- The failures accumulated by the dispatch loop are exactly the recipients
whose provider call failed, in order. -/
theorem sendBulkLoop_fail (subject body : List Char) (campaignId : Nat)
    (provider : Nat → SendOutcome) (gen : Nat → List Char) :
    ∀ (contacts : List Contact) (i : Nat) (db : Db),
      (sendBulkLoop subject body campaignId provider gen contacts i db).2.1.map
          (fun e => e.contact) =
        ((List.enumFrom i contacts).filter (fun p => !(provider p.1).isOk)).map
          (fun p => p.2)
  | [], _, _ => by simp [sendBulkLoop, List.enumFrom]
  | c :: rest, i, db => by
    cases ho : provider i with
    | ok mid =>
      simp [sendBulkLoop, ho, sendEmailModel, List.enumFrom, SendOutcome.isOk,
        sendBulkLoop_fail subject body campaignId provider gen rest (i + 1)]
    | err name msg =>
      simp [sendBulkLoop, ho, sendEmailModel, List.enumFrom, SendOutcome.isOk,
        sendBulkLoop_fail subject body campaignId provider gen rest (i + 1)]

/-- C3: for every contact list and pattern of per-recipient provider
outcomes, `sendBulkEmails` processes the recipients in list order without
aborting on failures: it writes exactly one `sent_emails` row per recipient
(in order, status `sent` on provider success and `failed` otherwise), its
`successful`/`failed` lists partition the recipients by provider outcome, and
`totalRequested` is the length of the contact list. -/
theorem c3_partial_failure_aggregation (contacts : List Contact)
    (subject body : List Char) (campaignId : Nat)
    (provider : Nat → SendOutcome) (gen : Nat → List Char) (db : Db) :
    (sendBulkEmails contacts subject body campaignId provider gen db).1.totalRequested =
        contacts.length ∧
    (sendBulkEmails contacts subject body campaignId provider gen db).2.sentEmails =
        db.sentEmails ++ contacts.enum.map
          (fun p => mkSentRecord subject campaignId provider gen p.1 p.2) ∧
    (sendBulkEmails contacts subject body campaignId provider gen db).1.successful.map
          (fun e => e.contact) =
        (contacts.enum.filter (fun p => (provider p.1).isOk)).map (fun p => p.2) ∧
    (sendBulkEmails contacts subject body campaignId provider gen db).1.failed.map
          (fun e => e.contact) =
        (contacts.enum.filter (fun p => !(provider p.1).isOk)).map (fun p => p.2) ∧
    (sendBulkEmails contacts subject body campaignId provider gen db).1.successful.length +
        (sendBulkEmails contacts subject body campaignId provider gen db).1.failed.length =
      contacts.length := by
  have hok := sendBulkLoop_ok subject body campaignId provider gen contacts 0 db
  have hfail := sendBulkLoop_fail subject body campaignId provider gen contacts 0 db
  have hsent := sendBulkLoop_sent subject body campaignId provider gen contacts 0 db
  have hlok := congrArg List.length hok
  have hlfail := congrArg List.length hfail
  simp only [List.length_map] at hlok hlfail
  refine ⟨rfl, ?_, ?_, ?_, ?_⟩
  · simpa [sendBulkEmails, List.enum] using hsent
  · simpa [sendBulkEmails, List.enum] using hok
  · simpa [sendBulkEmails, List.enum] using hfail
  · have hpart := length_filter_add_length_filter_not
      (fun p : Nat × Contact => (provider p.1).isOk) (List.enumFrom 0 contacts)
    have hlen : (List.enumFrom 0 contacts).length = contacts.length := by
      simp
    simp only [sendBulkEmails]
    omega

/-- Lemma: `friendlyError` never maps a non-empty provider message to the empty
string. -/
theorem friendlyError_ne_nil (toAddr name msg : List Char) (h : msg ≠ []) :
    friendlyError toAddr name msg ≠ [] := by
  unfold friendlyError
  split_ifs
  · unfold sandboxMsg
    intro hc
    rcases List.append_eq_nil.mp hc with ⟨h1, -⟩
    rcases List.append_eq_nil.mp h1 with ⟨h2, -⟩
    exact absurd h2 (by decide)
  · exact h
  · exact (by decide : throttleMsg ≠ [])
  · exact h

/-- C10: every `sent_emails` row written by the dispatch loop has status
exactly `'sent'` or `'failed'`; `error_message` is `NULL` when the status is
`'sent'` and non-`NULL` when it is `'failed'` (given non-empty provider error
messages, since `'' || null` would store `NULL`); and the stored subject is
the personalized subject for that recipient, not the raw template. -/
theorem c10_record_invariants (contacts : List Contact) (subject body : List Char)
    (campaignId : Nat) (provider : Nat → SendOutcome) (gen : Nat → List Char)
    (db : Db) (i : Nat) (c : Contact)
    (hmsg : ∀ j name msg, provider j = SendOutcome.err name msg → msg ≠ []) :
    (sendBulkEmails contacts subject body campaignId provider gen db).2.sentEmails =
        db.sentEmails ++ contacts.enum.map
          (fun p => mkSentRecord subject campaignId provider gen p.1 p.2) ∧
    ((mkSentRecord subject campaignId provider gen i c).status = "sent".toList ∨
      (mkSentRecord subject campaignId provider gen i c).status = "failed".toList) ∧
    ((mkSentRecord subject campaignId provider gen i c).status = "sent".toList →
      (mkSentRecord subject campaignId provider gen i c).errorMessage = none) ∧
    ((mkSentRecord subject campaignId provider gen i c).status = "failed".toList →
      (mkSentRecord subject campaignId provider gen i c).errorMessage ≠ none) ∧
    (mkSentRecord subject campaignId provider gen i c).subject =
      personalizeContent subject c.fields := by
  refine ⟨?_, ?_, ?_, ?_, rfl⟩
  · simpa [sendBulkEmails, List.enum] using
      sendBulkLoop_sent subject body campaignId provider gen contacts 0 db
  · cases ho : provider i <;> simp [mkSentRecord, ho, SendOutcome.isOk]
  · cases ho : provider i <;> simp [mkSentRecord, ho, SendOutcome.isOk]
  · cases ho : provider i with
    | ok mid => simp [mkSentRecord, ho, SendOutcome.isOk]
    | err name msg =>
      intro _
      simp only [mkSentRecord, ho, SendOutcome.isOk, jsOrNull]
      have := friendlyError_ne_nil c.emailAddr name msg (hmsg i name msg ho)
      simp [this]

/-- Witness for C10: one recipient, provider failing with message `boom`. -/
theorem c10_record_invariants_witness :
    (sendBulkEmails [sampleContact] "Hi {first_name}".toList "B".toList 1
        failProvider sampleGen emptyDb).2.sentEmails =
      emptyDb.sentEmails ++ [sampleContact].enum.map
        (fun p => mkSentRecord "Hi {first_name}".toList 1 failProvider sampleGen p.1 p.2) ∧
    ((mkSentRecord "Hi {first_name}".toList 1 failProvider sampleGen 0 sampleContact).status =
        "sent".toList ∨
      (mkSentRecord "Hi {first_name}".toList 1 failProvider sampleGen 0 sampleContact).status =
        "failed".toList) ∧
    ((mkSentRecord "Hi {first_name}".toList 1 failProvider sampleGen 0 sampleContact).status =
        "sent".toList →
      (mkSentRecord "Hi {first_name}".toList 1 failProvider sampleGen 0
          sampleContact).errorMessage = none) ∧
    ((mkSentRecord "Hi {first_name}".toList 1 failProvider sampleGen 0 sampleContact).status =
        "failed".toList →
      (mkSentRecord "Hi {first_name}".toList 1 failProvider sampleGen 0
          sampleContact).errorMessage ≠ none) ∧
    (mkSentRecord "Hi {first_name}".toList 1 failProvider sampleGen 0 sampleContact).subject =
      personalizeContent "Hi {first_name}".toList sampleContact.fields :=
  c10_record_invariants [sampleContact] "Hi {first_name}".toList "B".toList 1
    failProvider sampleGen emptyDb 0 sampleContact
    (by
      intro j n m hj
      simp [failProvider] at hj
      rcases hj with ⟨-, rfl⟩
      decide)

/-- C4: the quota reservation in the send route uses the **resolved** contact
count: across every branch, the daily counter either is unchanged (any
pre-flight rejection or reservation failure) or grows by exactly the number
of resolved contacts — and when only `M < N` of the `N` requested ids
resolve, it never grows by `N`. -/
theorem c4_resolution_shrinkage (limit : Nat) (probe : SESProbe)
    (contactsDb : List Contact) (provider : Nat → SendOutcome)
    (gen : Nat → List Char) (req : SendRequest) (db : Db) :
    ((handleSend limit probe contactsDb provider gen req db).2.quota = db.quota ∨
      (handleSend limit probe contactsDb provider gen req db).2.quota =
        db.quota + (resolveContacts contactsDb req.contactIds).length) ∧
    ((resolveContacts contactsDb req.contactIds).length < req.contactIds.length →
      (handleSend limit probe contactsDb provider gen req db).2.quota ≠
        db.quota + req.contactIds.length) := by
  have main : (handleSend limit probe contactsDb provider gen req db).2.quota = db.quota ∨
      (handleSend limit probe contactsDb provider gen req db).2.quota =
        db.quota + (resolveContacts contactsDb req.contactIds).length := by
    simp only [handleSend]
    set rc := if req.contactIds.length = 0 then 1 else req.contactIds.length with hrc
    split_ifs <;> try exact Or.inl rfl
    rcases hres : reserveQuota limit db.quota
        (resolveContacts contactsDb req.contactIds).length with _ | newQuota
    all_goals simp only [hres]
    · exact Or.inl trivial
    · refine Or.inr ?_
      rw [reserveQuota_eq] at hres
      split_ifs at hres with hfit
      injection hres with h
      simp only [sendBulkEmails]
      rw [sendBulkLoop_quota]
      simp
      omega
  refine ⟨main, fun hlt => ?_⟩
  rcases main with h | h <;> rw [h] <;> omega

/-- Witness for C4: two requested ids, one resolving; quota grows by `1`,
not `2`. -/
theorem c4_resolution_shrinkage_witness :
    ((handleSend 250 (SESProbe.failed []) [sampleContact] failProvider sampleGen
        { contactIds := [7, 8], subject := "S".toList, body := "B".toList }
        emptyDb).2.quota = emptyDb.quota ∨
      (handleSend 250 (SESProbe.failed []) [sampleContact] failProvider sampleGen
        { contactIds := [7, 8], subject := "S".toList, body := "B".toList }
        emptyDb).2.quota =
        emptyDb.quota + (resolveContacts [sampleContact] [7, 8]).length) ∧
    (handleSend 250 (SESProbe.failed []) [sampleContact] failProvider sampleGen
        { contactIds := [7, 8], subject := "S".toList, body := "B".toList }
        emptyDb).2.quota ≠ emptyDb.quota + 2 := by
  have h := c4_resolution_shrinkage 250 (SESProbe.failed []) [sampleContact]
    failProvider sampleGen
    { contactIds := [7, 8], subject := "S".toList, body := "B".toList } emptyDb
  exact ⟨h.1, h.2 (by decide)⟩

/-- C5 (amended): every non-completed outcome of the send route — the quota
guard's 429, the three validation failures, `no valid contacts`, and a failed
reservation — leaves the database fully unchanged (no campaign row, no
`sent_emails` row, no quota change, and no provider call, since
`providerCalls` is part of the state).  An empty recipient list, or a subject
or body that is empty after trim, never completes, and yields the 400
validation failure **whenever the quota-guard admits the request** (the guard
treats an empty list as a request for one email and may answer 429 first).
A failed reservation yields the 429 `QUOTA_RESERVATION_FAILED` response with
the state unchanged, before any provider call. -/
theorem c5_preflight_abort (limit : Nat) (probe : SESProbe)
    (contactsDb : List Contact) (provider : Nat → SendOutcome)
    (gen : Nat → List Char) (req : SendRequest) (db : Db) :
    ((handleSend limit probe contactsDb provider gen req db).1.isCompleted = false →
      (handleSend limit probe contactsDb provider gen req db).2 = db) ∧
    ((req.contactIds = [] ∨ trimStr req.subject = [] ∨ trimStr req.body = []) →
      (handleSend limit probe contactsDb provider gen req db).1.isCompleted = false ∧
      ((validateSendRequest limit db.quota
            (if req.contactIds.length = 0 then 1 else req.contactIds.length)
            probe).canSend = true →
        (handleSend limit probe contactsDb provider gen req db).1.isValidationError =
          true)) ∧
    ((validateSendRequest limit db.quota
          (if req.contactIds.length = 0 then 1 else req.contactIds.length)
          probe).canSend = true →
      resolveContacts contactsDb req.contactIds ≠ [] →
      reserveQuota limit db.quota (resolveContacts contactsDb req.contactIds).length =
          none →
      (handleSend limit probe contactsDb provider gen req db).1 =
          SendResponse.reservationFailed ∨
      (handleSend limit probe contactsDb provider gen req db).1.isValidationError =
          true) := by
  refine ⟨?_, ?_, ?_⟩
  · simp only [handleSend]
    set rc := if req.contactIds.length = 0 then 1 else req.contactIds.length with hrc
    split_ifs <;> try simp [SendResponse.isCompleted]
    rcases hres : reserveQuota limit db.quota
        (resolveContacts contactsDb req.contactIds).length with _ | newQuota <;>
      simp [hres, SendResponse.isCompleted]
  · intro hpre
    simp only [handleSend]
    set rc := if req.contactIds.length = 0 then 1 else req.contactIds.length with hrc
    split_ifs with h1 h2 h3 h4
    all_goals try exact ⟨rfl, fun hcs => by rw [hcs] at h1; exact absurd h1 (by decide)⟩
    all_goals try exact ⟨rfl, fun _ => rfl⟩
    all_goals rcases hpre with h | h | h
    all_goals simp_all
  · intro hcs h5 hres
    simp only [handleSend]
    set rc := if req.contactIds.length = 0 then 1 else req.contactIds.length with hrc
    split_ifs with h1 h2 h3 h4
    all_goals try (rw [hcs] at h1; exact absurd h1 (by decide))
    all_goals try exact Or.inr rfl
    all_goals simp_all [hres]

/-- Witness for C5: empty recipient list against a fresh-day state; the guard
admits, the route answers the 400 validation failure and the state is
untouched. -/
theorem c5_preflight_abort_witness :
    (handleSend 250 (SESProbe.failed []) [] failProvider sampleGen
        { contactIds := [], subject := "S".toList, body := "B".toList }
        emptyDb).1.isCompleted = false ∧
    (handleSend 250 (SESProbe.failed []) [] failProvider sampleGen
        { contactIds := [], subject := "S".toList, body := "B".toList }
        emptyDb).1.isValidationError = true ∧
    (handleSend 250 (SESProbe.failed []) [] failProvider sampleGen
        { contactIds := [], subject := "S".toList, body := "B".toList }
        emptyDb).2 = emptyDb := by
  have h := c5_preflight_abort 250 (SESProbe.failed []) [] failProvider sampleGen
    { contactIds := [], subject := "S".toList, body := "B".toList } emptyDb
  have h2 := h.2.1 (Or.inl rfl)
  exact ⟨h2.1, h2.2 (by decide), h.1 h2.1⟩

/-- C5 counterexample to the claim as stated: with the day's quota exhausted
(`used = 250` of `250`), a send with an **empty recipient list** is answered
by the quota-guard middleware with the 429 `QUOTA_EXCEEDED` response — the
guard reads `contactIds?.length || 1`, so the empty list counts as a request
for one email — not with a validation failure (the state is still
untouched). -/
theorem c5_counterexample :
    (handleSend 250 (SESProbe.failed []) [] failProvider sampleGen
        { contactIds := [], subject := "S".toList, body := "B".toList }
        { quota := 250, campaigns := [], sentEmails := [], providerCalls := 0 }).1 =
      SendResponse.quotaBlocked ∧
    SendResponse.quotaBlocked.isValidationError = false := by decide

/-- A replacement pass whose pattern occurs nowhere (case-insensitively)
returns its input unchanged. -/
theorem jsReplGo_of_not_contains (pat rep : List Char) :
    ∀ (s : List Char) (bef : List Char) (fuel : Nat),
      s.length ≤ fuel → containsCI pat s = false →
      jsReplGo pat rep fuel bef s = s
  | [], _, 0, _, _ => rfl
  | [], _, _ + 1, _, _ => rfl
  | c :: rest, bef, fuel + 1, hfuel, hcont => by
    rw [containsCI, Bool.or_eq_false_iff] at hcont
    rw [jsReplGo, if_neg (by simp [hcont.1])]
    rw [jsReplGo_of_not_contains pat rep rest (bef ++ [c]) fuel
      (by simpa using Nat.lt_succ_iff.mp (Nat.lt_of_lt_of_le (Nat.lt_succ_of_le le_rfl) hfuel)) hcont.2]

/-- Lemma: `s.replace(/pat/gi, rep) = s` when `pat` occurs nowhere in `s`. -/
theorem jsReplaceCI_of_not_contains (pat rep s : List Char)
    (h : containsCI pat s = false) : jsReplaceCI pat rep s = s := by
  cases pat with
  | nil => rfl
  | cons p ps => exact jsReplGo_of_not_contains (p :: ps) rep s [] s.length le_rfl h

/-- C8: personalization is idempotent on any input whose first pass leaves no
placeholder token (case-insensitively): applying `personalizeContent` to its
own output changes nothing. -/
theorem c8_personalize_idempotent (s : List Char) (f : Fields)
    (h1 : containsCI firstNameTok (personalizeContent s f) = false)
    (h2 : containsCI lastNameTok (personalizeContent s f) = false)
    (h3 : containsCI companyNameTok (personalizeContent s f) = false)
    (h4 : containsCI emailTok (personalizeContent s f) = false) :
    personalizeContent (personalizeContent s f) f = personalizeContent s f := by
  by_cases ht : personalizeContent s f = []
  · rw [personalizeContent, if_pos ht]
  · rw [personalizeContent, if_neg ht,
      jsReplaceCI_of_not_contains _ _ _ h1,
      jsReplaceCI_of_not_contains _ _ _ h2,
      jsReplaceCI_of_not_contains _ _ _ h3,
      jsReplaceCI_of_not_contains _ _ _ h4]

/-- Witness for C8 at `s = "Hi {first_name}"` with the sample contact fields
(first pass yields `"Hi Ann"`, token-free). -/
theorem c8_personalize_idempotent_witness :
    containsCI firstNameTok (personalizeContent "Hi {first_name}".toList sampleFields) =
        false ∧
    personalizeContent (personalizeContent "Hi {first_name}".toList sampleFields)
        sampleFields =
      personalizeContent "Hi {first_name}".toList sampleFields :=
  ⟨by decide,
    c8_personalize_idempotent "Hi {first_name}".toList sampleFields
      (by decide) (by decide) (by decide) (by decide)⟩

/-- Replacement-string expansion is the identity on `$`-free replacements. -/
theorem expandRepl_of_no_dollar (m bef aft : List Char) :
    ∀ (v : List Char), '$' ∉ v → expandRepl m bef aft v = v
  | [], _ => rfl
  | c :: t, h => by
    have hc : ¬(c = '$') := fun hcc => h (by simp [hcc])
    have ht : '$' ∉ t := fun htt => h (by simp [htt])
    rw [expandRepl.eq_def]
    simp only [if_neg hc]
    rw [expandRepl_of_no_dollar m bef aft t ht]

/-- A string starts (case-insensitively) with the lower-casing of its own
prefix. -/
theorem lowerEq_map_append :
    ∀ (act s : List Char), lowerEq (act.map toLowerCh) (act ++ s) = true
  | [], _ => rfl
  | a :: t, s => by
    simp only [List.map_cons, List.cons_append, lowerEq, beq_self_eq_true,
      Bool.true_and]
    exact lowerEq_map_append t s

/-- A case-insensitive match fails when the first pattern character does not
match. -/
theorem lowerEq_head_false (pat : List Char) (p0 c : Char) (rest : List Char)
    (hh : pat.head? = some p0) (hc : toLowerCh c ≠ p0) :
    lowerEq pat (c :: rest) = false := by
  cases pat with
  | nil => simp at hh
  | cons p ps =>
    simp only [List.head?_cons, Option.some.injEq] at hh
    subst hh
    simp [lowerEq, hc]

/-- A case-insensitive match determines each position under the pattern. -/
theorem lowerEq_get :
    ∀ (pat s : List Char), lowerEq pat s = true →
      ∀ i, i < pat.length → (s.get? i).map toLowerCh = pat.get? i
  | [], _, _, i, hi => by simp at hi
  | p :: ps, [], h, _, _ => by simp [lowerEq] at h
  | p :: ps, c :: cs, h, 0, _ => by
    simp only [lowerEq, Bool.and_eq_true, beq_iff_eq] at h
    simp [h.1]
  | p :: ps, c :: cs, h, i + 1, hi => by
    simp only [lowerEq, Bool.and_eq_true, beq_iff_eq] at h
    simpa using lowerEq_get ps cs h.2 i (by simpa using hi)

/-- A case-insensitive match is at least as long as its pattern. -/
theorem lowerEq_length :
    ∀ (pat s : List Char), lowerEq pat s = true → pat.length ≤ s.length
  | [], _, _ => by simp
  | p :: ps, [], h => by simp [lowerEq] at h
  | p :: ps, c :: cs, h => by
    simp only [lowerEq, Bool.and_eq_true] at h
    simpa using lowerEq_length ps cs h.2

/-- Every token pattern opens with the brace. -/
theorem canonTok_head (id : TkId) : (canonTok id).head? = some lbraceCh := by
  cases id <;> decide

/-- Every token pattern has at least two characters. -/
theorem canonTok_two_le (id : TkId) : 2 ≤ (canonTok id).length := by
  cases id <;> decide

/-- Distinct token patterns differ at position `1`. -/
theorem canonTok_get_one_ne (id id2 : TkId) (h : id ≠ id2) :
    (canonTok id).get? 1 ≠ (canonTok id2).get? 1 := by
  cases id <;> cases id2 <;> first | (exact absurd rfl h) | decide

/-- After its opening brace, a token pattern contains no brace. -/
theorem canonTok_tail_no_brace (id : TkId) :
    ∀ c ∈ (canonTok id).drop 1, c ≠ lbraceCh := by
  cases id <;> decide

/-- Lemma: `flattenP` distributes over append. -/
theorem flattenP_append :
    ∀ (l1 l2 : List PItem), flattenP (l1 ++ l2) = flattenP l1 ++ flattenP l2
  | [], _ => rfl
  | .ch c :: t, l2 => by
    simp [flattenP, flattenP_append t l2]
  | .tk id act :: t, l2 => by
    simp [flattenP, flattenP_append t l2]

/-- Flattening a run of plain characters. -/
theorem flattenP_map_ch :
    ∀ (v : List Char), flattenP (v.map PItem.ch) = v
  | [] => rfl
  | c :: t => by
    simp only [List.map_cons, flattenP]
    rw [flattenP_map_ch t]

/-- The scan copies a run of characters that cannot open a match (none
lower-cases to the pattern's first character). -/
theorem jsReplGo_plain_run (pat rep : List Char) (p0 : Char)
    (hh : pat.head? = some p0) :
    ∀ (t s bef : List Char) (fuel : Nat),
      (∀ c ∈ t, toLowerCh c ≠ p0) →
      t.length + s.length ≤ fuel →
      jsReplGo pat rep fuel bef (t ++ s) =
        t ++ jsReplGo pat rep (fuel - t.length) (bef ++ t) s
  | [], s, bef, fuel, _, _ => by simp
  | c :: t', s, bef, fuel, hch, hfuel => by
    cases fuel with
    | zero => simp at hfuel
    | succ f =>
      have hc : toLowerCh c ≠ p0 := hch c (List.mem_cons_self _ _)
      have hno : lowerEq pat (c :: (t' ++ s)) = false :=
        lowerEq_head_false pat p0 c _ hh hc
      show jsReplGo pat rep (f + 1) bef (c :: (t' ++ s)) = _
      rw [jsReplGo, if_neg (by simp [hno])]
      rw [jsReplGo_plain_run pat rep p0 hh t' s (bef ++ [c]) f
        (fun a ha => hch a (List.mem_cons_of_mem _ ha)) (by simp at hfuel; omega)]
      simp only [List.cons_append, List.length_cons, Nat.succ_sub_succ,
        ← List.append_cons]

/-- A token occurrence matches its own pattern case-insensitively. -/
theorem lowerEq_canonTok_of_act (id : TkId) (act s : List Char)
    (hact : act.map toLowerCh = canonTok id) :
    lowerEq (canonTok id) (act ++ s) = true := by
  rw [← hact]
  exact lowerEq_map_append act s

/-- A token occurrence does not match a *different* token's pattern. -/
theorem lowerEq_canonTok_ne (id id2 : TkId) (hne : id ≠ id2) (act s : List Char)
    (hact : act.map toLowerCh = canonTok id2) :
    lowerEq (canonTok id) (act ++ s) = false := by
  by_contra h
  rw [Bool.not_eq_false] at h
  have h1 := lowerEq_get (canonTok id) (act ++ s) h 1
    (by have := canonTok_two_le id; omega)
  have hlen : act.length = (canonTok id2).length := by
    simpa using congrArg List.length hact
  have h2 : (act ++ s).get? 1 = act.get? 1 :=
    List.get?_append (by have := canonTok_two_le id2; omega)
  have h3 : (act.map toLowerCh).get? 1 = (act.get? 1).map toLowerCh :=
    List.get?_map toLowerCh act 1
  rw [h2, ← h3, hact] at h1
  exact canonTok_get_one_ne id id2 hne h1.symm

/-- One global case-insensitive replacement pass over a well-formed template
replaces exactly the occurrences of its token, itemwise. -/
theorem jsReplGo_flatten (id : TkId) (v : List Char) (hv : '$' ∉ v) :
    ∀ (l : List PItem), (∀ it ∈ l, wfItem it = true) →
      ∀ (bef : List Char) (fuel : Nat), (flattenP l).length ≤ fuel →
      jsReplGo (canonTok id) v fuel bef (flattenP l) =
        flattenP (applySubst (substTk id v) l)
  | [], _, bef, fuel, _ => by cases fuel <;> rfl
  | .ch c :: l', hl, bef, fuel, hfuel => by
    have hc : toLowerCh c ≠ lbraceCh := by
      simpa [wfItem] using hl _ (List.mem_cons_self _ _)
    have hl' : ∀ it ∈ l', wfItem it = true :=
      fun it hit => hl it (List.mem_cons_of_mem _ hit)
    have hfuel' : (c :: flattenP l').length ≤ fuel := hfuel
    cases fuel with
    | zero => simp at hfuel'
    | succ f =>
      show jsReplGo (canonTok id) v (f + 1) bef (c :: flattenP l') = _
      rw [jsReplGo,
        if_neg (by simp [lowerEq_head_false (canonTok id) lbraceCh c _ (canonTok_head id) hc])]
      rw [jsReplGo_flatten id v hv l' hl' (bef ++ [c]) f (by simp at hfuel'; omega)]
      simp [applySubst, substTk, flattenP]
  | .tk id2 act :: l', hl, bef, fuel, hfuel => by
    have hact : act.map toLowerCh = canonTok id2 := by
      simpa [wfItem] using hl _ (List.mem_cons_self _ _)
    have hlen : act.length = (canonTok id2).length := by
      simpa using congrArg List.length hact
    have hl' : ∀ it ∈ l', wfItem it = true :=
      fun it hit => hl it (List.mem_cons_of_mem _ hit)
    have htwo := canonTok_two_le id2
    have hfuel' : (act ++ flattenP l').length ≤ fuel := hfuel
    cases act with
    | nil => simp at hlen; omega
    | cons a0 arest =>
      cases fuel with
      | zero => simp at hfuel'
      | succ f =>
        by_cases hid : id2 = id
        · subst hid
          have hmatch : lowerEq (canonTok id2) (a0 :: (arest ++ flattenP l')) = true :=
            lowerEq_canonTok_of_act id2 (a0 :: arest) (flattenP l') hact
          have htake : (a0 :: (arest ++ flattenP l')).take (canonTok id2).length =
              a0 :: arest := List.take_left' hlen
          have hdrop : (a0 :: (arest ++ flattenP l')).drop (canonTok id2).length =
              flattenP l' := List.drop_left' hlen
          show jsReplGo (canonTok id2) v (f + 1) bef (a0 :: (arest ++ flattenP l')) = _
          rw [jsReplGo, if_pos (by simp [hmatch]), htake, hdrop]
          simp only [expandRepl_of_no_dollar (a0 :: arest) bef (flattenP l') v hv]
          rw [jsReplGo_flatten id2 v hv l' hl' (bef ++ (a0 :: arest)) f
            (by simp at hfuel'; omega)]
          simp [applySubst, substTk, flattenP_append, flattenP_map_ch]
        · have hne : id ≠ id2 := fun he => hid he.symm
          have hnomatch : lowerEq (canonTok id) (a0 :: (arest ++ flattenP l')) = false :=
            lowerEq_canonTok_ne id id2 hne (a0 :: arest) (flattenP l') hact
          have harest : ∀ a ∈ arest, toLowerCh a ≠ lbraceCh := by
            intro a ha
            have hmem : toLowerCh a ∈ (canonTok id2).drop 1 := by
              rw [← hact]
              exact List.mem_map_of_mem toLowerCh ha
            exact canonTok_tail_no_brace id2 _ hmem
          show jsReplGo (canonTok id) v (f + 1) bef (a0 :: (arest ++ flattenP l')) = _
          rw [jsReplGo, if_neg (by simp [hnomatch])]
          rw [jsReplGo_plain_run (canonTok id) v lbraceCh (canonTok_head id)
            arest (flattenP l') (bef ++ [a0]) f harest (by simp at hfuel'; omega)]
          rw [jsReplGo_flatten id v hv l' hl' ((bef ++ [a0]) ++ arest) (f - arest.length)
            (by simp at hfuel'; omega)]
          have hsub : applySubst (substTk id v) (PItem.tk id2 (a0 :: arest) :: l') =
              [PItem.tk id2 (a0 :: arest)] ++ applySubst (substTk id v) l' := by
            simp [applySubst, substTk, hid]
          rw [hsub, flattenP_append]
          simp [flattenP]

/-- Lemma: `plainChars` forbids `$`. -/
theorem plainChars_no_dollar (v : List Char) (h : plainChars v = true) : '$' ∉ v := by
  intro hmem
  have := (List.all_eq_true.mp h) '$' hmem
  simp at this

/-- Lemma: `plainChars` forbids characters that lower-case to the opening brace. -/
theorem plainChars_no_brace (v : List Char) (h : plainChars v = true) :
    ∀ c ∈ v, toLowerCh c ≠ lbraceCh := by
  intro c hmem
  have := (List.all_eq_true.mp h) c hmem
  simp only [Bool.and_eq_true, Bool.not_eq_true', beq_eq_false_iff_ne] at this
  exact this.1

/-- Top-level form of the per-pass refinement. -/
theorem jsReplaceCI_flatten (id : TkId) (v : List Char) (hv : '$' ∉ v)
    (l : List PItem) (hl : ∀ it ∈ l, wfItem it = true) :
    jsReplaceCI (canonTok id) v (flattenP l) = flattenP (applySubst (substTk id v) l) := by
  have hne : canonTok id ≠ [] := by cases id <;> decide
  cases hpat : canonTok id with
  | nil => exact absurd hpat hne
  | cons p ps =>
    rw [show jsReplaceCI (p :: ps) v (flattenP l) =
        jsReplGo (p :: ps) v (flattenP l).length [] (flattenP l) from rfl]
    rw [← hpat]
    exact jsReplGo_flatten id v hv l hl [] _ le_rfl

/-- Lemma: `applySubst` distributes over append. -/
theorem applySubst_append (σ : PItem → List PItem) :
    ∀ (l1 l2 : List PItem),
      applySubst σ (l1 ++ l2) = applySubst σ l1 ++ applySubst σ l2
  | [], _ => rfl
  | it :: t, l2 => by
    show σ it ++ applySubst σ (t ++ l2) = (σ it ++ applySubst σ t) ++ applySubst σ l2
    rw [applySubst_append σ t l2, List.append_assoc]

/-- A replacement pass leaves a run of plain characters unchanged. -/
theorem applySubst_map_ch (id : TkId) (v : List Char) :
    ∀ (w : List Char), applySubst (substTk id v) (w.map PItem.ch) = w.map PItem.ch
  | [] => rfl
  | c :: t => by
    show substTk id v (.ch c) ++ applySubst (substTk id v) (t.map PItem.ch) = _
    rw [applySubst_map_ch id v t]
    rfl

/-- One pass preserves well-formedness when the value is plain. -/
theorem wf_applySubst (id : TkId) (v : List Char) (hvp : plainChars v = true) :
    ∀ (l : List PItem), (∀ it ∈ l, wfItem it = true) →
      ∀ it ∈ applySubst (substTk id v) l, wfItem it = true
  | [], _, it, hmem => by simp [applySubst] at hmem
  | it0 :: l', hl, it, hmem => by
    rw [show applySubst (substTk id v) (it0 :: l') =
      substTk id v it0 ++ applySubst (substTk id v) l' from rfl] at hmem
    rcases List.mem_append.mp hmem with hm | hm
    · cases it0 with
      | ch c =>
        simp [substTk] at hm
        subst hm
        exact hl _ (List.mem_cons_self _ _)
      | tk id2 act =>
        by_cases hid : id2 = id
        · simp only [substTk, if_pos hid] at hm
          rcases List.mem_map.mp hm with ⟨c, hc, rfl⟩
          simpa [wfItem] using plainChars_no_brace v hvp c hc
        · simp only [substTk, if_neg hid] at hm
          simp at hm
          subst hm
          exact hl _ (List.mem_cons_self _ _)
    · exact wf_applySubst id v hvp l'
        (fun x hx => hl x (List.mem_cons_of_mem _ hx)) it hm

/-- The four sequential passes, in source order, equal the simultaneous
itemwise substitution. -/
theorem applySubst_four (f : Fields) :
    ∀ (l : List PItem),
      applySubst (substTk .em (tokVal f .em))
        (applySubst (substTk .cn (tokVal f .cn))
          (applySubst (substTk .ln (tokVal f .ln))
            (applySubst (substTk .fn (tokVal f .fn)) l))) =
      applySubst (substAll f) l
  | [] => rfl
  | it :: l' => by
    have hitem :
        applySubst (substTk .em (tokVal f .em))
          (applySubst (substTk .cn (tokVal f .cn))
            (applySubst (substTk .ln (tokVal f .ln))
              (substTk .fn (tokVal f .fn) it))) = substAll f it := by
      cases it with
      | ch c => rfl
      | tk id act =>
        cases id <;>
          simp [substTk, substAll, applySubst, applySubst_map_ch, applySubst_append]
    calc
      applySubst (substTk .em (tokVal f .em))
          (applySubst (substTk .cn (tokVal f .cn))
            (applySubst (substTk .ln (tokVal f .ln))
              (substTk .fn (tokVal f .fn) it ++
                applySubst (substTk .fn (tokVal f .fn)) l'))) =
          applySubst (substTk .em (tokVal f .em))
            (applySubst (substTk .cn (tokVal f .cn))
              (applySubst (substTk .ln (tokVal f .ln))
                (substTk .fn (tokVal f .fn) it))) ++
          applySubst (substTk .em (tokVal f .em))
            (applySubst (substTk .cn (tokVal f .cn))
              (applySubst (substTk .ln (tokVal f .ln))
                (applySubst (substTk .fn (tokVal f .fn)) l'))) := by
        rw [applySubst_append, applySubst_append, applySubst_append]
      _ = substAll f it ++ applySubst (substAll f) l' := by
        rw [hitem, applySubst_four f l']
      _ = applySubst (substAll f) (it :: l') := rfl

/-- Dropping exactly the length of an appended prefix. -/
theorem drop_append_of_length (act s : List Char) (n : Nat) (h : act.length = n) :
    (act ++ s).drop n = s := by
  subst h
  exact List.drop_left act s

/-- The specification's simultaneous scan over a well-formed template is the
itemwise full substitution. -/
theorem specSubstGo_flatten (f : Fields) :
    ∀ (l : List PItem), (∀ it ∈ l, wfItem it = true) →
      ∀ (fuel : Nat), (flattenP l).length ≤ fuel →
      specSubstGo f fuel (flattenP l) = flattenP (applySubst (substAll f) l)
  | [], _, fuel, _ => by cases fuel <;> rfl
  | .ch c :: l', hl, fuel, hfuel => by
    have hc : toLowerCh c ≠ lbraceCh := by
      simpa [wfItem] using hl _ (List.mem_cons_self _ _)
    have hl' : ∀ it ∈ l', wfItem it = true :=
      fun it hit => hl it (List.mem_cons_of_mem _ hit)
    have hfuel' : (c :: flattenP l').length ≤ fuel := hfuel
    cases fuel with
    | zero => simp at hfuel'
    | succ fu =>
      have hn1 : lowerEq firstNameTok (c :: flattenP l') = false :=
        lowerEq_head_false _ lbraceCh c _ (by decide) hc
      have hn2 : lowerEq lastNameTok (c :: flattenP l') = false :=
        lowerEq_head_false _ lbraceCh c _ (by decide) hc
      have hn3 : lowerEq companyNameTok (c :: flattenP l') = false :=
        lowerEq_head_false _ lbraceCh c _ (by decide) hc
      have hn4 : lowerEq emailTok (c :: flattenP l') = false :=
        lowerEq_head_false _ lbraceCh c _ (by decide) hc
      show specSubstGo f (fu + 1) (c :: flattenP l') = _
      rw [specSubstGo, if_neg (by simp [hn1]), if_neg (by simp [hn2]),
        if_neg (by simp [hn3]), if_neg (by simp [hn4])]
      rw [specSubstGo_flatten f l' hl' fu (by simp at hfuel'; omega)]
      simp [applySubst, substAll, flattenP]
  | .tk id act :: l', hl, fuel, hfuel => by
    have hact : act.map toLowerCh = canonTok id := by
      simpa [wfItem] using hl _ (List.mem_cons_self _ _)
    have hlen : act.length = (canonTok id).length := by
      simpa using congrArg List.length hact
    have hl' : ∀ it ∈ l', wfItem it = true :=
      fun it hit => hl it (List.mem_cons_of_mem _ hit)
    have htwo := canonTok_two_le id
    have hfuel' : (act ++ flattenP l').length ≤ fuel := hfuel
    cases act with
    | nil => simp at hlen; omega
    | cons a0 arest =>
      cases fuel with
      | zero => simp at hfuel'
      | succ fu =>
        have hfu : (flattenP l').length ≤ fu := by simp at hfuel'; omega
        cases id with
        | fn =>
          have hm : lowerEq firstNameTok (a0 :: (arest ++ flattenP l')) = true :=
            lowerEq_canonTok_of_act .fn (a0 :: arest) (flattenP l') hact
          have hdrop : (a0 :: (arest ++ flattenP l')).drop firstNameTok.length =
              flattenP l' :=
            drop_append_of_length (a0 :: arest) (flattenP l') firstNameTok.length hlen
          show specSubstGo f (fu + 1) (a0 :: (arest ++ flattenP l')) = _
          rw [specSubstGo, if_pos (by simp [hm]), hdrop,
            specSubstGo_flatten f l' hl' fu hfu]
          simp [applySubst, substAll, flattenP_append, flattenP_map_ch, tokVal]
        | ln =>
          have hn1 : lowerEq firstNameTok (a0 :: (arest ++ flattenP l')) = false :=
            lowerEq_canonTok_ne .fn .ln (by decide) (a0 :: arest) (flattenP l') hact
          have hm : lowerEq lastNameTok (a0 :: (arest ++ flattenP l')) = true :=
            lowerEq_canonTok_of_act .ln (a0 :: arest) (flattenP l') hact
          have hdrop : (a0 :: (arest ++ flattenP l')).drop lastNameTok.length =
              flattenP l' :=
            drop_append_of_length (a0 :: arest) (flattenP l') lastNameTok.length hlen
          show specSubstGo f (fu + 1) (a0 :: (arest ++ flattenP l')) = _
          rw [specSubstGo, if_neg (by simp [hn1]), if_pos (by simp [hm]), hdrop,
            specSubstGo_flatten f l' hl' fu hfu]
          simp [applySubst, substAll, flattenP_append, flattenP_map_ch, tokVal]
        | cn =>
          have hn1 : lowerEq firstNameTok (a0 :: (arest ++ flattenP l')) = false :=
            lowerEq_canonTok_ne .fn .cn (by decide) (a0 :: arest) (flattenP l') hact
          have hn2 : lowerEq lastNameTok (a0 :: (arest ++ flattenP l')) = false :=
            lowerEq_canonTok_ne .ln .cn (by decide) (a0 :: arest) (flattenP l') hact
          have hm : lowerEq companyNameTok (a0 :: (arest ++ flattenP l')) = true :=
            lowerEq_canonTok_of_act .cn (a0 :: arest) (flattenP l') hact
          have hdrop : (a0 :: (arest ++ flattenP l')).drop companyNameTok.length =
              flattenP l' :=
            drop_append_of_length (a0 :: arest) (flattenP l') companyNameTok.length hlen
          show specSubstGo f (fu + 1) (a0 :: (arest ++ flattenP l')) = _
          rw [specSubstGo, if_neg (by simp [hn1]), if_neg (by simp [hn2]),
            if_pos (by simp [hm]), hdrop, specSubstGo_flatten f l' hl' fu hfu]
          simp [applySubst, substAll, flattenP_append, flattenP_map_ch, tokVal]
        | em =>
          have hn1 : lowerEq firstNameTok (a0 :: (arest ++ flattenP l')) = false :=
            lowerEq_canonTok_ne .fn .em (by decide) (a0 :: arest) (flattenP l') hact
          have hn2 : lowerEq lastNameTok (a0 :: (arest ++ flattenP l')) = false :=
            lowerEq_canonTok_ne .ln .em (by decide) (a0 :: arest) (flattenP l') hact
          have hn3 : lowerEq companyNameTok (a0 :: (arest ++ flattenP l')) = false :=
            lowerEq_canonTok_ne .cn .em (by decide) (a0 :: arest) (flattenP l') hact
          have hm : lowerEq emailTok (a0 :: (arest ++ flattenP l')) = true :=
            lowerEq_canonTok_of_act .em (a0 :: arest) (flattenP l') hact
          have hdrop : (a0 :: (arest ++ flattenP l')).drop emailTok.length =
              flattenP l' :=
            drop_append_of_length (a0 :: arest) (flattenP l') emailTok.length hlen
          show specSubstGo f (fu + 1) (a0 :: (arest ++ flattenP l')) = _
          rw [specSubstGo, if_neg (by simp [hn1]), if_neg (by simp [hn2]),
            if_neg (by simp [hn3]), if_pos (by simp [hm]), hdrop,
            specSubstGo_flatten f l' hl' fu hfu]
          simp [applySubst, substAll, flattenP_append, flattenP_map_ch, tokVal]

/-- C7 (amended): on templates whose braces all delimit recognized tokens
(given as a well-formed item list) and contacts whose field values contain no
brace-opening character and no `$`, `personalizeContent` — which never throws,
being a total function — replaces each case-insensitive token occurrence with
the corresponding field value (empty string when the field is absent) and
leaves every other character verbatim: it coincides with the specification's
simultaneous substitution `specSubst`. -/
theorem c7_personalize_refines_spec (l : List PItem) (f : Fields)
    (hl : ∀ it ∈ l, wfItem it = true)
    (h1 : plainChars (jsOrEmptyStr f.first_name) = true)
    (h2 : plainChars (jsOrEmptyStr f.last_name) = true)
    (h3 : plainChars (jsOrEmptyStr f.company_name) = true)
    (h4 : plainChars (jsOrEmptyStr f.email) = true) :
    personalizeContent (flattenP l) f = specSubst f (flattenP l) := by
  by_cases hnil : flattenP l = []
  · rw [personalizeContent, if_pos hnil, hnil]
    rfl
  · have hl1 : ∀ it ∈ applySubst (substTk .fn (tokVal f .fn)) l, wfItem it = true :=
      wf_applySubst .fn (tokVal f .fn) h1 l hl
    have hl2 : ∀ it ∈ applySubst (substTk .ln (tokVal f .ln))
        (applySubst (substTk .fn (tokVal f .fn)) l), wfItem it = true :=
      wf_applySubst .ln (tokVal f .ln) h2 _ hl1
    have hl3 : ∀ it ∈ applySubst (substTk .cn (tokVal f .cn))
        (applySubst (substTk .ln (tokVal f .ln))
          (applySubst (substTk .fn (tokVal f .fn)) l)), wfItem it = true :=
      wf_applySubst .cn (tokVal f .cn) h3 _ hl2
    have e1 : jsReplaceCI firstNameTok (jsOrEmptyStr f.first_name) (flattenP l) =
        flattenP (applySubst (substTk .fn (tokVal f .fn)) l) :=
      jsReplaceCI_flatten .fn (tokVal f .fn) (plainChars_no_dollar _ h1) l hl
    have e2 : jsReplaceCI lastNameTok (jsOrEmptyStr f.last_name)
        (flattenP (applySubst (substTk .fn (tokVal f .fn)) l)) =
        flattenP (applySubst (substTk .ln (tokVal f .ln))
          (applySubst (substTk .fn (tokVal f .fn)) l)) :=
      jsReplaceCI_flatten .ln (tokVal f .ln) (plainChars_no_dollar _ h2) _ hl1
    have e3 : jsReplaceCI companyNameTok (jsOrEmptyStr f.company_name)
        (flattenP (applySubst (substTk .ln (tokVal f .ln))
          (applySubst (substTk .fn (tokVal f .fn)) l))) =
        flattenP (applySubst (substTk .cn (tokVal f .cn))
          (applySubst (substTk .ln (tokVal f .ln))
            (applySubst (substTk .fn (tokVal f .fn)) l))) :=
      jsReplaceCI_flatten .cn (tokVal f .cn) (plainChars_no_dollar _ h3) _ hl2
    have e4 : jsReplaceCI emailTok (jsOrEmptyStr f.email)
        (flattenP (applySubst (substTk .cn (tokVal f .cn))
          (applySubst (substTk .ln (tokVal f .ln))
            (applySubst (substTk .fn (tokVal f .fn)) l)))) =
        flattenP (applySubst (substTk .em (tokVal f .em))
          (applySubst (substTk .cn (tokVal f .cn))
            (applySubst (substTk .ln (tokVal f .ln))
              (applySubst (substTk .fn (tokVal f .fn)) l)))) :=
      jsReplaceCI_flatten .em (tokVal f .em) (plainChars_no_dollar _ h4) _ hl3
    rw [personalizeContent, if_neg hnil, e1, e2, e3, e4, applySubst_four f l]
    rw [show specSubst f (flattenP l) =
      specSubstGo f (flattenP l).length (flattenP l) from rfl]
    rw [specSubstGo_flatten f l hl (flattenP l).length le_rfl]

/-- C7 counterexample to the claim as stated: with
`first_name = "{email}"` and `email = "x"`, personalizing the template
`"{first_name}"` yields `"x"` — the later email pass re-substitutes the text
just inserted by the first pass — whereas replacing each token occurrence
with the corresponding field value and leaving all other text verbatim (the
simultaneous `specSubst`) yields `"{email}"`. -/
theorem c7_counterexample :
    personalizeContent "{first_name}".toList
        { first_name := some "\x7bemail\x7d".toList
          last_name := none
          company_name := none
          email := some "x".toList } = "x".toList ∧
    specSubst
        { first_name := some "\x7bemail\x7d".toList
          last_name := none
          company_name := none
          email := some "x".toList } "{first_name}".toList = "\x7bemail\x7d".toList ∧
    ("x".toList : List Char) ≠ "\x7bemail\x7d".toList := by decide

/-- Witness for C7 on the template `"Hi {First_Name}!{company_name}"` (one
upper-cased token, one token whose field is absent) with the sample fields. -/
theorem c7_personalize_refines_spec_witness :
    personalizeContent
        (flattenP [PItem.ch 'H', PItem.ch 'i', PItem.ch ' ',
          PItem.tk TkId.fn "{First_Name}".toList, PItem.ch '!',
          PItem.tk TkId.cn "{company_name}".toList]) sampleFields =
      specSubst sampleFields
        (flattenP [PItem.ch 'H', PItem.ch 'i', PItem.ch ' ',
          PItem.tk TkId.fn "{First_Name}".toList, PItem.ch '!',
          PItem.tk TkId.cn "{company_name}".toList]) :=
  c7_personalize_refines_spec
    [PItem.ch 'H', PItem.ch 'i', PItem.ch ' ',
      PItem.tk TkId.fn "{First_Name}".toList, PItem.ch '!',
      PItem.tk TkId.cn "{company_name}".toList] sampleFields
    (by decide) (by decide) (by decide) (by decide) (by decide)

/-- Witness for C3: three recipients with only the second failing —
`successful = 2`, `failed = 1`, and exactly three rows written. -/
theorem c3_partial_failure_aggregation_witness :
    (sendBulkEmails [sampleContact, sampleContact, sampleContact]
        "Hi {first_name}".toList "B".toList 1 mixedProvider sampleGen
        emptyDb).1.totalRequested = 3 ∧
    (sendBulkEmails [sampleContact, sampleContact, sampleContact]
        "Hi {first_name}".toList "B".toList 1 mixedProvider sampleGen
        emptyDb).2.sentEmails.length = 3 ∧
    (sendBulkEmails [sampleContact, sampleContact, sampleContact]
        "Hi {first_name}".toList "B".toList 1 mixedProvider sampleGen
        emptyDb).1.successful.length = 2 ∧
    (sendBulkEmails [sampleContact, sampleContact, sampleContact]
        "Hi {first_name}".toList "B".toList 1 mixedProvider sampleGen
        emptyDb).1.failed.length = 1 := by
  have h := c3_partial_failure_aggregation [sampleContact, sampleContact, sampleContact]
    "Hi {first_name}".toList "B".toList 1 mixedProvider sampleGen emptyDb
  obtain ⟨h1, h2, h3, h4, h5⟩ := h
  refine ⟨h1, ?_, ?_, ?_⟩
  · rw [h2]
    decide
  · have := congrArg List.length h3
    simpa using this
  · have := congrArg List.length h4
    simpa using this

/-- Witness for C6 at a successful probe (`remaining = 60`) and a failed
probe, with `limit = 250`, `used = 0`, `requested = 5`. -/
theorem c6_fail_open_witness :
    ((validateSendRequest 250 0 5 (SESProbe.failed "down".toList)).canSend =
        (canSendEmails 250 0 5).canSend ∧
      ReasonType.AWS_QUOTA_EXCEEDED ∉
        (validateSendRequest 250 0 5 (SESProbe.failed "down".toList)).reasons ∧
      QuotaWarning.awsUnverified ∈
        (validateSendRequest 250 0 5 (SESProbe.failed "down".toList)).warnings) ∧
    ((validateSendRequest 250 0 5 (SESProbe.ok 100 40 14)).availableCount =
        if (100 : Int) - 40 ≠ 0 then
          min (canSendEmails 250 0 5).remaining ((100 : Int) - 40)
        else (canSendEmails 250 0 5).remaining) :=
  c6_fail_open 250 0 5 "down".toList (SESProbe.ok 100 40 14)

/-- Witness for C9: a found row past the pre-scan window whose insert throws
still answers with the pixel. -/
theorem c9_tracking_pixel_always_witness :
    (trackOpen sampleOpenCtx).1.head? = some TRACKING_PIXEL ∧
    ∀ b ∈ (trackOpen sampleOpenCtx).1, b = TRACKING_PIXEL :=
  c9_tracking_pixel_always sampleOpenCtx
